import Mathlib

/-!
Verification of the go-armbalancer recycling connection pool.

Shallow embedding of the Go sources:
- `connState.ApplyHeader` / `connState.Min` embed the rate-limit tracker of
  `armbalancer.go` (header maps become association lists, `strconv.ParseInt`
  becomes `parseIntGo`).
- `AcceptedRequestTargetAtHost` embeds the default accept policy and
  `KillBeforeThrottledPolicy.ShouldDropTransport` the default drop policy.
- `transportChannPool.RoundTrip` / `transportChannPool.selectTransport` embed
  the channel-based pool of `transport_pool.go`; the nondeterministic `select`
  over the transport channel and the request context is resolved by an oracle
  argument, and the returned `RTTrace` records which transport (if any) was
  acquired and whether the exchange was executed.
- `step` / `Trace` give an interleaving semantics for one recyclable
  connection slot of `armbalancer.go`: `acquire` is the lock-protected block
  of `recyclableTransport.RoundTrip` that copies the current handle pointer
  and increments its WaitGroup, `finish` is the completion of the exchange
  (counter increment, header observation, deferred WaitGroup decrement),
  `swap` is the lock-protected swap of the background recycle loop (guarded
  exactly as in the source), and `drainClose` is `previousActiveCount.Wait()`
  followed by `previous.CloseIdleConnections()`, enabled only once the
  captured WaitGroup has reached zero.  Transport handles are identified by
  their generation number; the coalesced recheck channel is abstracted into
  nondeterministic scheduling of the evaluator, which only enlarges the set
  of traces and is therefore sound for the safety properties proved below.
-/

namespace ArmBalancer

/-- One entry of an `http.Header`: a canonical key together with its values.
A Go header entry always carries at least one value (`vals[0]` is read
unconditionally by the source), so the first value is a separate field. -/
structure HeaderEntry where
  key : String
  val0 : String
  rest : List String
deriving DecidableEq

/-- A response header set, as the source iterates over it. -/
abbrev Headers := List HeaderEntry

/-- The `types` map of `connState`, as an association list. -/
abbrev ConnTypes := List (String × Int)

/-- The constant `rateLimitHeaderPrefix` of armbalancer.go. -/
def rateLimitHeaderPfx : String := "X-Ms-Ratelimit-Remaining-"

/-- Character-list core of `strings.HasPrefix`. -/
def hasPrefixChars : List Char → List Char → Bool
  | [], _ => true
  | _ :: _, [] => false
  | p :: ps, c :: cs => p == c && hasPrefixChars ps cs

/-- `strings.HasPrefix(s, p)` (all keys involved are ASCII, so the
byte-level Go comparison and this character-level one agree). -/
def goHasPrefix (p s : String) : Bool := hasPrefixChars p.data s.data

/-- The Go slice `s[n:]` (again identical to byte slicing on ASCII keys). -/
def dropGo (s : String) (n : Nat) : String := ⟨s.data.drop n⟩

/-- Decimal digits of `strconv.ParseInt`: every character must be a digit. -/
def decDigits (cs : List Char) : Option Nat :=
  cs.foldl
    (fun acc c =>
      match acc with
      | none => none
      | some n => if c.isDigit then some (n * 10 + (c.toNat - 48)) else none)
    (some 0)

/-- `strconv.ParseInt(s, 10, 0)` on a 64-bit platform: an optional sign, a
nonempty run of decimal digits, and an int64 range check; `none` is Go's
error return. -/
def parseIntGo (s : String) : Option Int :=
  let digits : Bool → List Char → Option Int := fun neg cs =>
    if cs.isEmpty then none
    else
      match decDigits cs with
      | none => none
      | some n =>
        if neg then if n ≤ 2 ^ 63 then some (-(n : Int)) else none
        else if n < 2 ^ 63 then some (n : Int) else none
  match s.data with
  | [] => none
  | '+' :: cs => digits false cs
  | '-' :: cs => digits true cs
  | cs => digits false cs

/-- Go map assignment `m[k] = v` on the association-list model. -/
def setType (k : String) (v : Int) : ConnTypes → ConnTypes
  | [] => [(k, v)]
  | (k0, v0) :: t => if k0 = k then (k, v) :: t else (k0, v0) :: setType k v t

/-- One iteration of the loop body of `connState.ApplyHeader`: keys not
bearing the exact prefix are skipped, the first value is parsed, a parse
error skips the entry, and a successful parse stores the value under the key
with the prefix stripped. -/
def connState.applyEntry (m : ConnTypes) (e : HeaderEntry) : ConnTypes :=
  if goHasPrefix rateLimitHeaderPfx e.key then
    match parseIntGo e.val0 with
    | some n => setType (dropGo e.key rateLimitHeaderPfx.data.length) n m
    | none => m
  else m

/-- `connState.ApplyHeader`: fold the loop body over the header entries. -/
def connState.ApplyHeader (m : ConnTypes) (h : Headers) : ConnTypes :=
  h.foldl connState.applyEntry m

/-- `connState.Min`: fold starting from `math.MaxInt64`. -/
def connState.Min (m : ConnTypes) : Int :=
  m.foldl (fun acc kv => if kv.2 < acc then kv.2 else acc) (2 ^ 63 - 1)

/-- A request target URL, reduced to the two components the policies read:
`url.Hostname()` and `url.Port()` (the empty string when no port is given). -/
structure URL where
  hostname : String
  port : String
deriving DecidableEq

/-- The default accept policy `AcceptedRequestTargetAtHost(host, port)`
applied to a request with the given URL. -/
def AcceptedRequestTargetAtHost (host port : String) (u : URL) : Bool :=
  u.hostname == host && (u.port == "" || port == u.port)

/-- `KillBeforeThrottledPolicy.ShouldDropTransport`: true when some header
with the rate-limit key carries a first value parsing below the threshold. -/
def KillBeforeThrottledPolicy.ShouldDropTransport
    (recycleThreshold : Int) (h : Headers) : Bool :=
  h.any fun e =>
    goHasPrefix rateLimitHeaderPfx e.key &&
      match parseIntGo e.val0 with
      | some n => decide (n < recycleThreshold)
      | none => false

/-- Go error values reaching the caller of the channel pool. -/
inductive GoError where
  | serverClosed
  | errMsg (msg : String)
deriving DecidableEq

/-- The fixed message of the accept-policy rejection in
`transportChannPool.RoundTrip`. -/
def requestNotSupportedMsg : String :=
  "the request is not supported by the configured ARM balancer"

/-- What the receive from the pool channel yields: the channel may be closed,
or deliver a transport (identified by a number). -/
inductive ChanRead where
  | closed
  | received (t : Nat)
deriving DecidableEq

/-- Which branch of the `select` in `selectTransport` fires. -/
inductive SelOutcome where
  | fromPool (r : ChanRead)
  | fromCtxDone
deriving DecidableEq

/-- `transportChannPool.selectTransport`: a closed pool channel and a done
request context both surface `http.ErrServerClosed`. -/
def transportChannPool.selectTransport : SelOutcome → Except GoError Nat
  | .fromPool .closed => .error .serverClosed
  | .fromPool (.received t) => .ok t
  | .fromCtxDone => .error .serverClosed

/-- The observable footprint of one `transportChannPool.RoundTrip` call:
which transport was taken from the pool channel, whether the exchange was
executed against it, and the error/response returned. -/
structure RTTrace where
  acquired : Option Nat
  executed : Bool
  err : Option GoError
  resp : Option Headers
deriving DecidableEq

/-- The pool state relevant to request admission. -/
structure ChannPool where
  requestAcceptPolicy : Option (URL → Bool)

/-- `transportChannPool.RoundTrip`: a configured accept policy that rejects
the request fails with the fixed message before the pool channel is touched;
otherwise a transport is selected and the exchange runs against it.
`exchange` supplies the outcome of `transport.RoundTrip`. -/
def transportChannPool.RoundTrip (pool : ChannPool) (req : URL)
    (sel : SelOutcome) (exchange : Nat → URL → Option Headers × Option GoError) :
    RTTrace :=
  if (match pool.requestAcceptPolicy with
      | some p => !(p req)
      | none => false) then
    ⟨none, false, some (.errMsg requestNotSupportedMsg), none⟩
  else
    match transportChannPool.selectTransport sel with
    | .error e => ⟨none, false, some e, none⟩
    | .ok t => ⟨some t, true, (exchange t req).2, (exchange t req).1⟩

/-- The configuration captured by the recycle loop's closure. -/
structure RecycleConfig where
  recycleThreshold : Int
  minReqsBeforeRecycle : Int

/-- The shared state of one recyclable connection slot.  Transport handles
are numbered by generation: `currentGen` identifies `r.current`, and
`inflight g` is the counter of the `sync.WaitGroup` associated with the
handle of generation `g`.  `drainGen` is the recycle loop's local `previous`
pointer while the loop is between its swap and its close; `closedGens`
records the handles whose `CloseIdleConnections` has run. -/
structure SlotState where
  currentGen : Nat
  inflight : Nat → Nat
  counter : Int
  tracker : ConnTypes
  drainGen : Option Nat
  closedGens : List Nat

/-- The slot as `newRecyclableTransport` builds it: a fresh handle, a fresh
WaitGroup, a zero counter, an empty tracker, the recycle loop idle. -/
def SlotState.init : SlotState :=
  { currentGen := 0
    inflight := fun _ => 0
    counter := 0
    tracker := []
    drainGen := none
    closedGens := [] }

/-- `wg.Add(1)` on the WaitGroup of generation `g`. -/
def incAt (f : Nat → Nat) (g : Nat) : Nat → Nat :=
  fun n => if n = g then f g + 1 else f n

/-- `wg.Add(-1)` on the WaitGroup of generation `g`. -/
def decAt (f : Nat → Nat) (g : Nat) : Nat → Nat :=
  fun n => if n = g then f g - 1 else f n

/-- Installing the brand-new WaitGroup of generation `g` (its counter is
zero whatever the model previously associated with that number). -/
def zeroAt (f : Nat → Nat) (g : Nat) : Nat → Nat :=
  fun n => if n = g then 0 else f n

/-- Events of one slot's interleaved execution. -/
inductive Ev where
  /-- A request's lock-protected entry block: it copies the current handle
  (generation `g`) and its WaitGroup and increments that WaitGroup. -/
  | acquire (g : Nat)
  /-- A request completes its exchange against the handle of generation `g`:
  the served counter is incremented, the tracker observes the response
  headers when a response is present, and the deferred decrement releases
  the WaitGroup copied at acquire time. -/
  | finish (g : Nat) (resp : Option Headers)
  /-- The recycle loop passes its guard and performs the lock-protected swap. -/
  | swap
  /-- `previousActiveCount.Wait()` returns and the loop closes the idle
  connections of the captured previous handle. -/
  | drainClose (g : Nat)
deriving DecidableEq

/-- Small-step semantics of one slot, following `recyclableTransport.RoundTrip`
and the background loop of `newRecyclableTransport` line by line. -/
inductive step (cfg : RecycleConfig) : SlotState → Ev → SlotState → Prop where
  | acquire (s : SlotState) :
      step cfg s (.acquire s.currentGen)
        { s with inflight := incAt s.inflight s.currentGen }
  | finish (s : SlotState) (g : Nat) (resp : Option Headers)
      (h : 0 < s.inflight g) :
      step cfg s (.finish g resp)
        { s with
          counter := s.counter + 1
          tracker :=
            match resp with
            | some hd => connState.ApplyHeader s.tracker hd
            | none => s.tracker
          inflight := decAt s.inflight g }
  | swap (s : SlotState)
      (hidle : s.drainGen = none)
      (hmin : connState.Min s.tracker ≤ cfg.recycleThreshold)
      (hreqs : cfg.minReqsBeforeRecycle ≤ s.counter) :
      step cfg s .swap
        { s with
          currentGen := s.currentGen + 1
          counter := 0
          inflight := zeroAt s.inflight (s.currentGen + 1)
          drainGen := some s.currentGen }
  | drainClose (s : SlotState) (g : Nat)
      (hg : s.drainGen = some g) (hdone : s.inflight g = 0) :
      step cfg s (.drainClose g)
        { s with drainGen := none, closedGens := g :: s.closedGens }

/-- A finite interleaving of slot events. -/
inductive Trace (cfg : RecycleConfig) : SlotState → List Ev → SlotState → Prop where
  | nil (s : SlotState) : Trace cfg s [] s
  | cons {s s' s'' : SlotState} {e : Ev} {es : List Ev}
      (h1 : step cfg s e s') (h2 : Trace cfg s' es s'') :
      Trace cfg s (e :: es) s''

/-- Recognizer for an acquire of generation `g`. -/
def isAcquire (g : Nat) : Ev → Bool
  | .acquire g0 => g0 == g
  | _ => false

/-- Recognizer for a completion against generation `g`. -/
def isFinish (g : Nat) : Ev → Bool
  | .finish g0 _ => g0 == g
  | _ => false

/-- How many requests of a trace began execution against generation `g`. -/
def countAcquire (g : Nat) (es : List Ev) : Nat := es.countP (isAcquire g)

/-- How many requests of a trace completed against generation `g`. -/
def countFinish (g : Nat) (es : List Ev) : Nat := es.countP (isFinish g)

/-- Generations beyond the current one have never been handed to a request:
their WaitGroup counters are zero.  Holds initially and is preserved. -/
def GoodInflight (s : SlotState) : Prop :=
  ∀ g, s.currentGen < g → s.inflight g = 0

/-- The generation captured by the recycle loop for draining is always a
retired one (strictly before the current generation). -/
def DrainBelow (s : SlotState) : Prop :=
  ∀ g, s.drainGen = some g → g < s.currentGen

theorem step_currentGen_mono {cfg : RecycleConfig} {s : SlotState} {e : Ev}
    {s' : SlotState} (h : step cfg s e s') : s.currentGen ≤ s'.currentGen := by
  cases h <;> simp

theorem step_good {cfg : RecycleConfig} {s : SlotState} {e : Ev} {s' : SlotState}
    (h : step cfg s e s') (hg : GoodInflight s) : GoodInflight s' := by
  cases h with
  | acquire =>
    intro g hlt
    dsimp only at hlt ⊢
    have := hg g hlt
    unfold incAt
    split
    · omega
    · exact this
  | finish g0 resp hpos =>
    intro g hlt
    dsimp only at hlt ⊢
    unfold decAt
    by_cases hc : g = g0
    · subst hc
      have := hg g hlt
      simp only [if_pos rfl]
      omega
    · rw [if_neg hc]
      exact hg g hlt
  | swap hidle hmin hreqs =>
    intro g hlt
    dsimp only at hlt ⊢
    unfold zeroAt
    split
    · rfl
    · exact hg g (by omega)
  | drainClose g0 hd hdone =>
    intro g hlt
    exact hg g hlt

theorem step_drainBelow {cfg : RecycleConfig} {s : SlotState} {e : Ev}
    {s' : SlotState} (h : step cfg s e s') (hd : DrainBelow s) : DrainBelow s' := by
  cases h with
  | acquire => exact hd
  | finish g0 resp hpos => exact hd
  | swap hidle hmin hreqs =>
    intro g hgen
    dsimp only at hgen ⊢
    rw [Option.some_inj] at hgen
    omega
  | drainClose g0 hg0 hdone =>
    intro g hgen
    dsimp only at hgen
    cases hgen

theorem trace_drainBelow {cfg : RecycleConfig} {s : SlotState} {es : List Ev}
    {s' : SlotState} (h : Trace cfg s es s') (hd : DrainBelow s) : DrainBelow s' := by
  induction h with
  | nil s => exact hd
  | cons h1 _ ih => exact ih (step_drainBelow h1 hd)

theorem trace_currentGen_mono {cfg : RecycleConfig} {s : SlotState} {es : List Ev}
    {s' : SlotState} (h : Trace cfg s es s') : s.currentGen ≤ s'.currentGen := by
  induction h with
  | nil s => exact Nat.le_refl _
  | cons h1 _ ih => exact Nat.le_trans (step_currentGen_mono h1) ih

/-- One step changes a generation's WaitGroup counter by exactly the request
begin/end it performs on that generation. -/
theorem step_balance {cfg : RecycleConfig} {s : SlotState} {e : Ev}
    {s' : SlotState} (h : step cfg s e s') (hg : GoodInflight s) (g : Nat) :
    s'.inflight g + (if isFinish g e then 1 else 0) =
      s.inflight g + (if isAcquire g e then 1 else 0) := by
  cases h with
  | acquire =>
    dsimp only [isAcquire, isFinish, incAt]
    by_cases hc : g = s.currentGen
    · subst hc; simp
    · simp [hc, Ne.symm hc]
  | finish g0 resp hpos =>
    dsimp only [isAcquire, isFinish, decAt]
    by_cases hc : g = g0
    · subst hc; simp; omega
    · simp [hc, Ne.symm hc]
  | swap hidle hmin hreqs =>
    dsimp only [isAcquire, isFinish, zeroAt]
    by_cases hc : g = s.currentGen + 1
    · have hz : s.inflight (s.currentGen + 1) = 0 := hg _ (by omega)
      simp [hc, hz]
    · simp [hc]
  | drainClose g0 hg0 hdone =>
    simp [isAcquire, isFinish]

/-- Along any trace, per generation, the WaitGroup counter plus the number of
completions equals the initial counter plus the number of acquisitions:
begins and ends of requests are matched by the WaitGroup. -/
theorem trace_balance {cfg : RecycleConfig} {s : SlotState} {es : List Ev}
    {s' : SlotState} (h : Trace cfg s es s') (hg : GoodInflight s) (g : Nat) :
    s'.inflight g + countFinish g es = s.inflight g + countAcquire g es := by
  induction h with
  | nil s => simp [countFinish, countAcquire]
  | cons h1 h2 ih =>
    have hb := step_balance h1 hg g
    have ih' := ih (step_good h1 hg)
    simp only [countFinish, countAcquire, List.countP_cons] at ih' ⊢
    omega

/-- Once retired, a generation is never acquired again: every acquisition in
a trace targets the current generation, which only grows. -/
theorem trace_no_stale_acquire {cfg : RecycleConfig} {s : SlotState}
    {es : List Ev} {s' : SlotState} (h : Trace cfg s es s') (g : Nat)
    (hlt : g < s.currentGen) : Ev.acquire g ∉ es := by
  induction h with
  | nil s => simp
  | cons h1 h2 ih =>
    intro hmem
    rcases List.mem_cons.mp hmem with heq | hmem'
    · cases h1 <;> simp_all
    · exact ih (Nat.lt_of_lt_of_le hlt (step_currentGen_mono h1)) hmem'

/-- C1: for every recycle event, every request whose execution began against
the pre-swap transport handle completes before that handle's resources are
released.  In any interleaving that reaches a `drainClose g` event (the
background loop calling `CloseIdleConnections` on the captured previous
handle `g`, enabled only once the captured WaitGroup has reached zero),
every request that acquired handle `g` beforehand has already finished
(acquisitions and completions of `g` balance exactly), and no request ever
acquires handle `g` afterwards — so no request observes a closed handle. -/
theorem drain_safety (cfg : RecycleConfig) (es1 es2 : List Ev) (g : Nat)
    {s1 s2 s3 : SlotState}
    (h1 : Trace cfg SlotState.init es1 s1)
    (hclose : step cfg s1 (Ev.drainClose g) s2)
    (h2 : Trace cfg s2 es2 s3) :
    countAcquire g es1 = countFinish g es1 ∧ Ev.acquire g ∉ es2 := by
  have hgood : GoodInflight SlotState.init := by
    intro g0 _
    rfl
  have hdb : DrainBelow s1 := by
    refine trace_drainBelow h1 ?_
    intro g0 hg0
    simp [SlotState.init] at hg0
  cases hclose with
  | drainClose g hgd hdone =>
    have hbal := trace_balance h1 hgood g
    have hinit : SlotState.init.inflight g = 0 := rfl
    have hlt : g < s1.currentGen := hdb g hgd
    refine ⟨by omega, ?_⟩
    exact trace_no_stale_acquire h2 g (by dsimp only; exact hlt)

/-- Configuration used by the concrete witness traces. -/
def wCfg : RecycleConfig := ⟨100, 1⟩

/-- A response carrying one rate-limit header with value 5. -/
def wHdr : Headers := [⟨"X-Ms-Ratelimit-Remaining-A", "5", []⟩]

/-- A concrete history: one request runs to completion on handle 0, its
depleted quota triggers a swap to handle 1. -/
def wEs1 : List Ev := [.acquire 0, .finish 0 (some wHdr), .swap]

/-- After the close of handle 0, a request acquires the new handle 1. -/
def wEs2 : List Ev := [.acquire 1]

/-- Witness for C1: `drain_safety` applied to the concrete recycle trace. -/
theorem drain_safety_witness :
    countAcquire 0 wEs1 = countFinish 0 wEs1 ∧ Ev.acquire 0 ∉ wEs2 :=
  drain_safety wCfg wEs1 wEs2 0
    (Trace.cons (step.acquire SlotState.init)
      (Trace.cons (step.finish _ 0 (some wHdr) (by decide))
        (Trace.cons (step.swap _ rfl (by decide) (by decide)) (Trace.nil _))))
    (step.drainClose _ 0 rfl (by decide))
    (Trace.cons (step.acquire _) (Trace.nil _))

/-- A slot state with one served request and a tracker minimum exactly at
the default threshold 100. -/
def c2State : SlotState :=
  { currentGen := 0
    inflight := fun _ => 0
    counter := 1
    tracker := [("A", 100)]
    drainGen := none
    closedGens := [] }

/-- The state the swap step produces from `c2State`. -/
def c2Swapped : SlotState :=
  { currentGen := c2State.currentGen + 1
    inflight := zeroAt c2State.inflight (c2State.currentGen + 1)
    counter := 0
    tracker := c2State.tracker
    drainGen := some c2State.currentGen
    closedGens := c2State.closedGens }

/-- C2 counterexample: with threshold 100 and a tracker whose minimum is
exactly 100 — not strictly below the threshold — the guard
`Min() > recycleThreshold` fails and the handle is swapped, refuting the
claim that recycling happens only when the minimum is below the threshold. -/
theorem recycle_fires_at_threshold :
    step wCfg c2State Ev.swap c2Swapped ∧
      ¬ connState.Min c2State.tracker < wCfg.recycleThreshold :=
  ⟨step.swap c2State rfl (by decide) (by decide), by decide⟩

/-- C2 (amended): a handle is swapped only when, at evaluation time, the
tracker minimum is at or below the configured threshold (a minimum equal to
the threshold also recycles) and the served counter has reached the
minimum-before-recycle; in particular a handle that has served fewer than
the configured minimum requests is never recycled, whatever the quota
values observed. -/
theorem recycle_guard (cfg : RecycleConfig) :
    (∀ s s' : SlotState, step cfg s Ev.swap s' →
        connState.Min s.tracker ≤ cfg.recycleThreshold ∧
          cfg.minReqsBeforeRecycle ≤ s.counter) ∧
    (∀ s s' : SlotState, s.counter < cfg.minReqsBeforeRecycle →
        ¬ step cfg s Ev.swap s') := by
  constructor
  · intro s s' h
    cases h with
    | swap hidle hmin hreqs => exact ⟨hmin, hreqs⟩
  · intro s s' hlt h
    cases h with
    | swap hidle hmin hreqs => omega

/-- Witness for C2: the guard characterisation applied to the concrete swap
out of `c2State`, and the impossibility of a swap out of the fresh slot
(zero served requests, minimum-before-recycle one). -/
theorem recycle_guard_witness :
    (connState.Min c2State.tracker ≤ wCfg.recycleThreshold ∧
        wCfg.minReqsBeforeRecycle ≤ c2State.counter) ∧
      ¬ step wCfg SlotState.init Ev.swap c2Swapped :=
  ⟨(recycle_guard wCfg).1 c2State c2Swapped
      (step.swap c2State rfl (by decide) (by decide)),
    (recycle_guard wCfg).2 SlotState.init c2Swapped (by decide)⟩

/-- C3 counterexample: swapping out of a state whose tracker has recorded a
category leaves the tracker untouched and nonempty, refuting the claim that
the swap installs a fresh Tracker and resets the snapshot to empty. -/
theorem swap_keeps_tracker :
    step wCfg c2State Ev.swap c2Swapped ∧ c2Swapped.tracker ≠ [] :=
  ⟨step.swap c2State rfl (by decide) (by decide), by decide⟩

/-- C3 (amended): the swap step, under the slot's lock, installs a
brand-new transport handle (the next generation), a fresh zeroed in-flight
object and a reset served counter, and captures the previous handle for
draining — but it does NOT install a fresh Tracker: the rate-limit
snapshot is carried over unchanged, so its categories are not scoped to one
handle instance. -/
theorem swap_effects (cfg : RecycleConfig) (s s' : SlotState)
    (h : step cfg s Ev.swap s') :
    s'.currentGen = s.currentGen + 1 ∧
      s'.inflight s'.currentGen = 0 ∧
      s'.counter = 0 ∧
      s'.drainGen = some s.currentGen ∧
      s'.tracker = s.tracker := by
  cases h with
  | swap hidle hmin hreqs =>
    refine ⟨rfl, ?_, rfl, rfl, rfl⟩
    simp [zeroAt]

/-- Witness for C3: the swap effects at the concrete swap out of `c2State`. -/
theorem swap_effects_witness :
    c2Swapped.currentGen = c2State.currentGen + 1 ∧
      c2Swapped.inflight c2Swapped.currentGen = 0 ∧
      c2Swapped.counter = 0 ∧
      c2Swapped.drainGen = some c2State.currentGen ∧
      c2Swapped.tracker = c2State.tracker :=
  swap_effects wCfg c2State c2Swapped (step.swap c2State rfl (by decide) (by decide))

theorem minFold_le_init (m : ConnTypes) :
    ∀ a : Int, m.foldl (fun acc kv => if kv.2 < acc then kv.2 else acc) a ≤ a := by
  induction m with
  | nil => intro a; simp
  | cons kv0 t ih =>
    intro a
    simp only [List.foldl_cons]
    refine le_trans (ih _) ?_
    split <;> omega

theorem minFold_le_mem (m : ConnTypes) :
    ∀ (a : Int) (kv : String × Int), kv ∈ m →
      m.foldl (fun acc kv => if kv.2 < acc then kv.2 else acc) a ≤ kv.2 := by
  induction m with
  | nil => intro a kv h; cases h
  | cons kv0 t ih =>
    intro a kv hmem
    simp only [List.foldl_cons]
    rcases List.mem_cons.mp hmem with h | h
    · subst h
      refine le_trans (minFold_le_init t _) ?_
      split <;> omega
    · exact ih _ kv h

theorem minFold_attained (m : ConnTypes) :
    ∀ a : Int, m.foldl (fun acc kv => if kv.2 < acc then kv.2 else acc) a = a ∨
      ∃ kv, kv ∈ m ∧
        m.foldl (fun acc kv => if kv.2 < acc then kv.2 else acc) a = kv.2 := by
  induction m with
  | nil => intro a; left; rfl
  | cons kv0 t ih =>
    intro a
    simp only [List.foldl_cons]
    rcases ih (if kv0.2 < a then kv0.2 else a) with h | ⟨kv, hmem, h⟩
    · by_cases hlt : kv0.2 < a
      · right
        exact ⟨kv0, List.mem_cons_self kv0 t, by rw [h, if_pos hlt]⟩
      · left
        rw [h, if_neg hlt]
    · right
      exact ⟨kv, List.mem_cons_of_mem kv0 hmem, h⟩

/-- C7 (amended): `Min` of an empty snapshot is the sentinel
`math.MaxInt64 = 2^63 - 1`; on a snapshot whose recorded values are int64
values (as every parsed header value is) it returns the smallest recorded
value; and the recycle evaluator treats the sentinel as "do not recycle"
whenever the configured threshold is less than the sentinel — which holds
for the default 100 and every attainable quota, but not for a threshold
configured to exactly `2^63 - 1`, where an empty snapshot does recycle (see
the counterexample). -/
theorem min_no_data :
    connState.Min [] = 2 ^ 63 - 1 ∧
    (∀ (m : ConnTypes) (kv : String × Int), kv ∈ m → connState.Min m ≤ kv.2) ∧
    (∀ m : ConnTypes, m ≠ [] → (∀ kv ∈ m, kv.2 ≤ 2 ^ 63 - 1) →
        ∃ kv, kv ∈ m ∧ connState.Min m = kv.2) ∧
    (∀ (cfg : RecycleConfig) (s s' : SlotState),
        cfg.recycleThreshold < 2 ^ 63 - 1 → s.tracker = [] →
          ¬ step cfg s Ev.swap s') := by
  refine ⟨rfl, ?_, ?_, ?_⟩
  · intro m kv hmem
    exact minFold_le_mem m _ kv hmem
  · intro m hne hbound
    rcases minFold_attained m (2 ^ 63 - 1) with h | ⟨kv, hmem, h⟩
    · cases m with
      | nil => exact absurd rfl hne
      | cons kv0 t =>
        refine ⟨kv0, List.mem_cons_self kv0 t, ?_⟩
        have h1 := minFold_le_mem (kv0 :: t) (2 ^ 63 - 1) kv0
          (List.mem_cons_self kv0 t)
        have h2 := hbound kv0 (List.mem_cons_self kv0 t)
        unfold connState.Min
        omega
    · exact ⟨kv, hmem, h⟩
  · intro cfg s s' hthr htr h
    cases h with
    | swap hidle hmin hreqs =>
      rw [htr] at hmin
      have : connState.Min [] = 2 ^ 63 - 1 := rfl
      omega

/-- A fresh slot that has served one failed exchange. -/
def c7State : SlotState :=
  { currentGen := 0
    inflight := fun _ => 0
    counter := 1
    tracker := []
    drainGen := none
    closedGens := [] }

/-- A recycle threshold configured to `math.MaxInt64`. -/
def c7Cfg : RecycleConfig := ⟨2 ^ 63 - 1, 1⟩

/-- The state the swap step produces from `c7State`. -/
def c7Swapped : SlotState :=
  { currentGen := c7State.currentGen + 1
    inflight := zeroAt c7State.inflight (c7State.currentGen + 1)
    counter := 0
    tracker := c7State.tracker
    drainGen := some c7State.currentGen
    closedGens := c7State.closedGens }

/-- C7 counterexample: with the recycle threshold configured to the
representable int64 value `2^63 - 1`, the sentinel returned by `Min` on an
empty snapshot does not exceed the threshold, so a slot whose tracker never
recorded any category IS recycled — refuting "the slot is never recycled on
the basis of an empty snapshot" as a statement over all configurations. -/
theorem recycle_on_empty_snapshot :
    c7State.tracker = [] ∧ step c7Cfg c7State Ev.swap c7Swapped :=
  ⟨rfl, step.swap c7State rfl (by decide) (by decide)⟩

/-- Witness for C7: the bounds applied to the one-entry snapshot value 7,
and the impossibility of a swap out of an empty-snapshot slot under the
default threshold 100. -/
theorem min_no_data_witness :
    connState.Min [("A", (7 : Int))] ≤ 7 ∧
      (∃ kv, kv ∈ [("A", (7 : Int))] ∧ connState.Min [("A", (7 : Int))] = kv.2) ∧
      ¬ step wCfg c7State Ev.swap c7Swapped :=
  ⟨min_no_data.2.1 [("A", (7 : Int))] ("A", (7 : Int)) (List.mem_singleton.mpr rfl),
    min_no_data.2.2.1 [("A", (7 : Int))] (by simp)
      (by intro kv hkv; rw [List.mem_singleton.mp hkv]; decide),
    min_no_data.2.2.2 wCfg c7State c7Swapped (by decide) rfl⟩

/-- `n` failed exchanges against the fresh handle 0: each acquires the
handle and finishes with no response. -/
def failEvents : Nat → List Ev
  | 0 => []
  | n + 1 => .acquire 0 :: .finish 0 none :: failEvents n

theorem failEvents_trace (cfg : RecycleConfig) :
    ∀ (n : Nat) (s : SlotState), s.currentGen = 0 →
      ∃ s' : SlotState, Trace cfg s (failEvents n) s' ∧
        s'.counter = s.counter + n ∧ s'.tracker = s.tracker ∧
        s'.currentGen = 0 := by
  intro n
  induction n with
  | zero =>
    intro s h0
    exact ⟨s, Trace.nil s, by simp, rfl, h0⟩
  | succ n ih =>
    intro s h0
    obtain ⟨cg, infl, cnt, trk, dg, cls⟩ := s
    dsimp only at h0
    subst h0
    obtain ⟨s', htr, hc, ht, hgen⟩ :=
      ih ⟨0, decAt (incAt infl 0) 0, cnt + 1, trk, dg, cls⟩ rfl
    refine ⟨s', Trace.cons (step.acquire _)
      (Trace.cons (step.finish _ 0 none ?_) htr), ?_, ht, hgen⟩
    · dsimp only [incAt]
      simp
    · dsimp only at hc
      push_cast at hc ⊢
      omega

/-- C10: every completion of an exchange increments the served counter by
exactly one, also when the exchange returned no response (a transport
error); the tracker is only updated when a response is present.  Hence `n`
failed exchanges on a fresh slot leave the counter at `n` with an empty
tracker: the minimum-requests-before-recycle guard can be satisfied purely
through failed exchanges, without any header observation. -/
theorem finish_effects :
    (∀ (cfg : RecycleConfig) (s : SlotState) (g : Nat)
        (resp : Option Headers) (s' : SlotState),
        step cfg s (Ev.finish g resp) s' →
          s'.counter = s.counter + 1 ∧
            (resp = none → s'.tracker = s.tracker) ∧
            ∀ hd, resp = some hd →
              s'.tracker = connState.ApplyHeader s.tracker hd) ∧
    (∀ (cfg : RecycleConfig) (n : Nat), ∃ s' : SlotState,
        Trace cfg SlotState.init (failEvents n) s' ∧
          s'.counter = n ∧ s'.tracker = []) := by
  constructor
  · intro cfg s g resp s' h
    cases h with
    | finish g resp hpos =>
      refine ⟨rfl, ?_, ?_⟩
      · intro hn
        subst hn
        rfl
      · intro hd hs
        subst hs
        rfl
  · intro cfg n
    obtain ⟨s', htr, hc, ht, _⟩ := failEvents_trace cfg n SlotState.init rfl
    refine ⟨s', htr, ?_, ht⟩
    have : SlotState.init.counter = 0 := rfl
    omega

/-- The fresh slot after its first acquire. -/
def fwPre : SlotState :=
  { currentGen := 0
    inflight := incAt (fun _ => 0) 0
    counter := 0
    tracker := []
    drainGen := none
    closedGens := [] }

/-- The slot after that request finishes with no response. -/
def fwPost : SlotState :=
  { currentGen := 0
    inflight := decAt fwPre.inflight 0
    counter := fwPre.counter + 1
    tracker := []
    drainGen := none
    closedGens := [] }

/-- Witness for C10: the finish effects at a concrete failed exchange. -/
theorem finish_effects_witness :
    fwPost.counter = fwPre.counter + 1 ∧
      ((none : Option Headers) = none → fwPost.tracker = fwPre.tracker) ∧
      (∀ hd, (none : Option Headers) = some hd →
        fwPost.tracker = connState.ApplyHeader fwPre.tracker hd) :=
  finish_effects.1 wCfg fwPre 0 none fwPost (step.finish fwPre 0 none (by decide))

/-- C4 (amended): a request rejected by the configured accept policy makes
the pool's `RoundTrip` fail immediately with the fixed "request is not
supported" error: no transport is acquired from the pool channel and no
exchange is executed.  The error does NOT name the destination(s) the pool
serves (see the counterexample); a destination-naming error exists only in
the multi-destination router layer. -/
theorem reject_before_touching_pool
    (p : URL → Bool) (req : URL) (sel : SelOutcome)
    (exchange : Nat → URL → Option Headers × Option GoError)
    (hrej : p req = false) :
    transportChannPool.RoundTrip ⟨some p⟩ req sel exchange =
      ⟨none, false, some (.errMsg requestNotSupportedMsg), none⟩ := by
  simp [transportChannPool.RoundTrip, hrej]

/-- Witness for C4: the spec's rejection scenario — a pool configured for
host.example:443 rejecting a request for other.example before touching any
handle. -/
theorem reject_before_touching_pool_witness :
    transportChannPool.RoundTrip
        ⟨some (AcceptedRequestTargetAtHost "host.example" "443")⟩
        ⟨"other.example", ""⟩ (.fromPool .closed) (fun _ _ => (none, none)) =
      ⟨none, false, some (.errMsg requestNotSupportedMsg), none⟩ :=
  reject_before_touching_pool (AcceptedRequestTargetAtHost "host.example" "443")
    ⟨"other.example", ""⟩ (.fromPool .closed) (fun _ _ => (none, none)) (by decide)

/-- C4 counterexample: two pools configured for different destinations
return byte-for-byte the same rejection error, and the configured
destination name does not occur anywhere in that error's message — so the
error cannot be naming the destination(s) the pool actually serves. -/
theorem reject_error_nameless :
    (transportChannPool.RoundTrip
        ⟨some (AcceptedRequestTargetAtHost "host.example" "443")⟩
        ⟨"other.example", ""⟩ (.fromPool .closed) (fun _ _ => (none, none))).err =
      (transportChannPool.RoundTrip
        ⟨some (AcceptedRequestTargetAtHost "second.example" "8443")⟩
        ⟨"other.example", ""⟩ (.fromPool .closed) (fun _ _ => (none, none))).err ∧
    ¬ "host.example".data <:+: requestNotSupportedMsg.data := by
  constructor
  · decide
  · decide

/-- The accept rule exactly as the claim words it: hostname equal, and an
absent port on EITHER side treated as "don't care". -/
def acceptClaimRule (host port : String) (u : URL) : Prop :=
  u.hostname = host ∧ (u.port = "" ∨ port = "" ∨ u.port = port)

/-- C5 counterexample: with host "host.com" and an absent configured port,
a request for "host.com:443" satisfies the claim's rule (absent port on the
configured side is "don't care") yet the default accept policy rejects it:
the code only treats an absent port on the REQUEST side as a wildcard. -/
theorem accept_policy_configured_port_not_wildcard :
    acceptClaimRule "host.com" "" ⟨"host.com", "443"⟩ ∧
      AcceptedRequestTargetAtHost "host.com" "" ⟨"host.com", "443"⟩ = false :=
  ⟨⟨rfl, Or.inr (Or.inl rfl)⟩, by decide⟩

/-- C5 (amended): the default accept policy accepts a request iff the
request's hostname equals the configured host and either the request
carries no explicit port or its port equals the configured one.  An absent
port on the request side is "don't care" (so a portless request to the
configured host is accepted, and an explicit port differing from the
configured one is rejected); an absent CONFIGURED port is not a wildcard —
it matches only requests that also omit the port. -/
theorem accept_policy_characterisation (host port : String) (u : URL) :
    AcceptedRequestTargetAtHost host port u = true ↔
      u.hostname = host ∧ (u.port = "" ∨ port = u.port) := by
  simp [AcceptedRequestTargetAtHost]

/-- C6 counterexample: a header whose key matches the rate-limit prefix
only case-insensitively (here with a lowercase leading x) and whose value
"5" is a well-formed non-negative integer is NOT recorded by `ApplyHeader`:
the prefix test `strings.HasPrefix` is case-sensitive. -/
theorem apply_header_case_sensitive :
    hasPrefixChars (rateLimitHeaderPfx.data.map Char.toLower)
        ("x-Ms-Ratelimit-Remaining-A".data.map Char.toLower) = true ∧
      parseIntGo "5" = some 5 ∧
      connState.ApplyHeader [] [⟨"x-Ms-Ratelimit-Remaining-A", "5", []⟩] = [] :=
  ⟨by decide, by decide, by decide⟩

theorem applyEntry_skips_malformed (m : ConnTypes) (e : HeaderEntry)
    (hmal : parseIntGo e.val0 = none) : connState.applyEntry m e = m := by
  unfold connState.applyEntry
  rw [hmal]
  split <;> rfl

/-- C6 (amended): the prefix match of `ApplyHeader` is case-SENSITIVE (the
exact prefix `X-Ms-Ratelimit-Remaining-`), not case-insensitive as claimed.
With that correction the rest of the claim holds: every header bearing the
exact prefix whose first value parses as an integer is recorded under the
key formed by stripping the prefix; a header whose value is malformed is
silently ignored and does not prevent other well-formed headers of the same
response from being recorded (one value "9" plus one "not-a-number" yields
minimum 9). -/
theorem apply_header_records :
    (∀ (m : ConnTypes) (e : HeaderEntry) (n : Int),
        goHasPrefix rateLimitHeaderPfx e.key = true →
          parseIntGo e.val0 = some n →
            connState.applyEntry m e =
              setType (dropGo e.key rateLimitHeaderPfx.data.length) n m) ∧
    (∀ (m : ConnTypes) (h1 h2 : Headers) (e : HeaderEntry),
        parseIntGo e.val0 = none →
          connState.ApplyHeader m (h1 ++ e :: h2) =
            connState.ApplyHeader m (h1 ++ h2)) ∧
    (connState.ApplyHeader []
        [⟨"X-Ms-Ratelimit-Remaining-Good", "9", []⟩,
          ⟨"X-Ms-Ratelimit-Remaining-Bad", "not-a-number", []⟩] = [("Good", 9)] ∧
      connState.Min (connState.ApplyHeader []
        [⟨"X-Ms-Ratelimit-Remaining-Good", "9", []⟩,
          ⟨"X-Ms-Ratelimit-Remaining-Bad", "not-a-number", []⟩]) = 9) := by
  refine ⟨?_, ?_, by decide, by decide⟩
  · intro m e n hpre hval
    unfold connState.applyEntry
    rw [hpre, hval]
    simp
  · intro m h1 h2 e hmal
    unfold connState.ApplyHeader
    rw [List.foldl_append, List.foldl_append, List.foldl_cons,
      applyEntry_skips_malformed _ e hmal]

/-- Witness for C6: the amended claim applied to the concrete scenario
headers. -/
theorem apply_header_records_witness :
    connState.applyEntry [] ⟨"X-Ms-Ratelimit-Remaining-Good", "9", []⟩ =
        setType (dropGo "X-Ms-Ratelimit-Remaining-Good"
          rateLimitHeaderPfx.data.length) 9 [] ∧
      connState.ApplyHeader []
          ([⟨"X-Ms-Ratelimit-Remaining-Good", "9", []⟩] ++
            ⟨"X-Ms-Ratelimit-Remaining-Bad", "not-a-number", []⟩ :: []) =
        connState.ApplyHeader []
          ([⟨"X-Ms-Ratelimit-Remaining-Good", "9", []⟩] ++ []) :=
  ⟨apply_header_records.1 [] ⟨"X-Ms-Ratelimit-Remaining-Good", "9", []⟩ 9
      (by decide) (by decide),
    apply_header_records.2.1 [] [⟨"X-Ms-Ratelimit-Remaining-Good", "9", []⟩] []
      ⟨"X-Ms-Ratelimit-Remaining-Bad", "not-a-number", []⟩ (by decide)⟩

/-- C8: a request canceled while waiting for a transport, or a pool shut
down mid-wait (closed pool channel), makes `RoundTrip` return
`http.ErrServerClosed` with no transport acquired and no exchange executed;
and that error value is distinct from every `fmt.Errorf` message error, in
particular from the accept-policy routing error — so callers can
distinguish "the request was canceled / the pool is unavailable" from "the
destination is wrong". -/
theorem cancel_or_shutdown_distinct
    (p : URL → Bool) (req : URL) (sel : SelOutcome)
    (exchange : Nat → URL → Option Headers × Option GoError)
    (hacc : p req = true)
    (hsel : sel = SelOutcome.fromCtxDone ∨ sel = SelOutcome.fromPool ChanRead.closed) :
    transportChannPool.RoundTrip ⟨some p⟩ req sel exchange =
        ⟨none, false, some GoError.serverClosed, none⟩ ∧
      ∀ msg, GoError.serverClosed ≠ GoError.errMsg msg := by
  constructor
  · rcases hsel with h | h <;> subst h <;>
      simp [transportChannPool.RoundTrip, transportChannPool.selectTransport, hacc]
  · intro msg h
    cases h

/-- Witness for C8: a request to the accepted destination whose context is
canceled while it waits for a transport. -/
theorem cancel_or_shutdown_distinct_witness :
    transportChannPool.RoundTrip
        ⟨some (AcceptedRequestTargetAtHost "host.example" "443")⟩
        ⟨"host.example", "443"⟩ SelOutcome.fromCtxDone (fun _ _ => (none, none)) =
        ⟨none, false, some GoError.serverClosed, none⟩ ∧
      ∀ msg, GoError.serverClosed ≠ GoError.errMsg msg :=
  cancel_or_shutdown_distinct (AcceptedRequestTargetAtHost "host.example" "443")
    ⟨"host.example", "443"⟩ SelOutcome.fromCtxDone (fun _ _ => (none, none))
    (by decide) (Or.inl rfl)

/-- Erase every value of a header entry after the first. -/
def clearRest (e : HeaderEntry) : HeaderEntry := ⟨e.key, e.val0, []⟩

/-- C9: both the tracker's `ApplyHeader` and the default drop policy's
`ShouldDropTransport` examine only the FIRST value of each header (Go's
`vals[0]`): erasing all subsequent values of every header changes neither
result, even when those values are well-formed integers. -/
theorem only_first_value_examined (m : ConnTypes) (thr : Int) (h : Headers) :
    connState.ApplyHeader m (h.map clearRest) = connState.ApplyHeader m h ∧
      KillBeforeThrottledPolicy.ShouldDropTransport thr (h.map clearRest) =
        KillBeforeThrottledPolicy.ShouldDropTransport thr h := by
  constructor
  · induction h generalizing m with
    | nil => rfl
    | cons e t ih =>
      simp only [List.map_cons, connState.ApplyHeader, List.foldl_cons]
      exact ih (connState.applyEntry m e)
  · induction h with
    | nil => rfl
    | cons e t ih =>
      simp only [List.map_cons, KillBeforeThrottledPolicy.ShouldDropTransport,
        List.any_cons] at ih ⊢
      rw [ih]
      rfl

end ArmBalancer
